import Mathlib

/-!
# Disaster Relief Distribution Tracker — verification of the core data layer

Shallow embedding of the SQLite-backed core of `final code.py`
(functions `init_db`, `add_person`, `list_people`, `list_aid_types`,
`add_request`, `list_pending_requests`, `mark_delivered`, `search`,
`delivered_summary_by_area`, `export_to_csv`), together with the
input-validation logic of `PeopleTab.on_add`.

Modelling conventions:
* each SQLite table is a Lean list of rows in insertion order, together
  with the next AUTOINCREMENT id value (SQLite assigns ids 1, 2, ...);
* SQL `ORDER BY ... DESC` is modelled by `List.insertionSort` with the
  corresponding key relation (ties keep scan order, which SQL leaves
  unspecified);
* SQL joins are modelled row-by-row: an inner join filters the joined
  table by the join key, and a left join yields the `none` row exactly
  when no joined row matches;
* the code never issues `PRAGMA foreign_keys`, and sqlite3 leaves
  foreign-key enforcement OFF by default, so the declared FOREIGN KEY
  clauses do not reject dangling references; mutations therefore always
  insert;
* text columns are Lean `String`s stored verbatim.
-/

namespace DRDT

/-- Row of the `people` table: `id, name TEXT NOT NULL, area TEXT NOT NULL, age INTEGER` (nullable). -/
structure Person where
  id : Nat
  name : String
  area : String
  age : Option Nat
deriving DecidableEq, Repr

/-- Row of the `aid_requests` table. -/
structure AidRequest where
  id : Nat
  person_id : Nat
  aid_type : String
  request_date : String
deriving DecidableEq, Repr

/-- Row of the `aid_delivered` table. -/
structure AidDelivery where
  id : Nat
  request_id : Nat
  item_given : String
  delivery_date : String
deriving DecidableEq, Repr

/-- The whole store (`drdt.db`).  `aid_types` keeps only the `aid_name`
column (its `id` column is never read by any query of the program); the
`seq` fields are the AUTOINCREMENT counters of the remaining tables. -/
structure DB where
  people : List Person
  aid_types : List String
  requests : List AidRequest
  deliveries : List AidDelivery
  seqPeople : Nat
  seqRequests : Nat
  seqDeliveries : Nat
deriving DecidableEq, Repr

/-- A freshly created database file: empty tables, AUTOINCREMENT starts at 1. -/
def emptyDB : DB := ⟨[], [], [], [], 1, 1, 1⟩

/-- `INSERT OR IGNORE INTO aid_types(aid_name) VALUES(?)`: the `UNIQUE`
constraint on `aid_name` makes the insert a no-op when the name is
already present. -/
def insertAidType (db : DB) (n : String) : DB :=
  if n ∈ db.aid_types then db else { db with aid_types := db.aid_types ++ [n] }

/-- The seed rows of `init_db`. -/
def seedNames : List String := ["Food", "Medicine", "Shelter", "Clothing", "Water"]

/-- `init_db`: `CREATE TABLE IF NOT EXISTS ...` (no-op on table contents)
followed by `INSERT OR IGNORE` of the five seed aid types. -/
def init_db (db : DB) : DB := seedNames.foldl insertAidType db

/-- `add_person`: `INSERT INTO people(name,area,age) VALUES (?,?,?)` with the
argument `age if age else None` — a falsy Python `age` (both `None` and `0`)
is stored as NULL. -/
def add_person (db : DB) (name area : String) (age : Option Nat) : DB :=
  let stored : Option Nat :=
    match age with
    | none => none
    | some a => if a = 0 then none else some a
  { db with
    people := db.people ++ [⟨db.seqPeople, name, area, stored⟩]
    seqPeople := db.seqPeople + 1 }

/-- `add_request`: unconditional `INSERT INTO aid_requests(...)`.  The FOREIGN
KEY on `person_id` is declared but not enforced (no `PRAGMA foreign_keys`). -/
def add_request (db : DB) (pid : Nat) (aid_type req_date : String) : DB :=
  { db with
    requests := db.requests ++ [⟨db.seqRequests, pid, aid_type, req_date⟩]
    seqRequests := db.seqRequests + 1 }

/-- `mark_delivered`: unconditional `INSERT INTO aid_delivered(...)`.  The
FOREIGN KEY on `request_id` is declared but not enforced. -/
def mark_delivered (db : DB) (rid : Nat) (item d_date : String) : DB :=
  { db with
    deliveries := db.deliveries ++ [⟨db.seqDeliveries, rid, item, d_date⟩]
    seqDeliveries := db.seqDeliveries + 1 }

/-- How a form handler call ends when it does not insert:
`validationError`/`notFoundError` are the `messagebox.showerror` dialogs of
the handlers; `uncaughtValueError` is a Python exception escaping the
handler (no dialog is shown — Tk reports the traceback — and the store is
unchanged because the exception is raised before any insert). -/
inductive OpError where
  | validationError
  | notFoundError
  | uncaughtValueError
deriving DecidableEq, Repr

/-- The first code point of every Unicode 15.0 decimal-digit run
(Numeric_Type=Decimal, general category Nd; each run is the ten code points
zero..zero+9).  This is the Unicode version shipped with CPython 3.12's
`unicodedata`; `int()` accepts exactly these digit characters. -/
def decDigitZeros : List Nat :=
  [0x30, 0x660, 0x6F0, 0x7C0, 0x966, 0x9E6, 0xA66, 0xAE6, 0xB66, 0xBE6,
   0xC66, 0xCE6, 0xD66, 0xDE6, 0xE50, 0xED0, 0xF20, 0x1040, 0x1090, 0x17E0,
   0x1810, 0x1946, 0x19D0, 0x1A80, 0x1A90, 0x1B50, 0x1BB0, 0x1C40, 0x1C50,
   0xA620, 0xA8D0, 0xA900, 0xA9D0, 0xA9F0, 0xAA50, 0xABF0, 0xFF10,
   0x104A0, 0x10D30, 0x11066, 0x110F0, 0x11136, 0x111D0, 0x112F0, 0x11450,
   0x114D0, 0x11650, 0x116C0, 0x11730, 0x118E0, 0x11950, 0x11C50, 0x11D50,
   0x11DA0, 0x11F50, 0x16A60, 0x16AC0, 0x16B50,
   0x1D7CE, 0x1D7D8, 0x1D7E2, 0x1D7EC, 0x1D7F6,
   0x1E140, 0x1E2F0, 0x1E4F0, 0x1E950, 0x1FBF0]

/-- The decimal value of a character, when it is a Unicode decimal digit. -/
def decDigitVal (c : Char) : Option Nat :=
  (decDigitZeros.find? (fun z => decide (z ≤ c.toNat ∧ c.toNat < z + 10))).map
    (fun z => c.toNat - z)

/-- The Unicode 15.0 ranges with Numeric_Type=Digit (DerivedNumericType.txt):
digit characters such as superscripts, subscripts, circled and
parenthesized digits that `str.isdigit` accepts but `int()` rejects. -/
def digitOnlyRanges : List (Nat × Nat) :=
  [(0xB2, 0xB3), (0xB9, 0xB9), (0x1369, 0x1371), (0x19DA, 0x19DA),
   (0x2070, 0x2070), (0x2074, 0x2079), (0x2080, 0x2089),
   (0x2460, 0x2468), (0x2474, 0x247C), (0x2488, 0x2490),
   (0x24EA, 0x24EA), (0x24F5, 0x24FD), (0x24FF, 0x24FF),
   (0x2776, 0x277E), (0x2780, 0x2788), (0x278A, 0x2792),
   (0x10A40, 0x10A43), (0x1F100, 0x1F10A)]

/-- A character `str.isdigit` accepts: Numeric_Type Decimal or Digit. -/
def isDigitChar (c : Char) : Bool :=
  (decDigitVal c).isSome ||
    digitOnlyRanges.any (fun r => decide (r.1 ≤ c.toNat ∧ c.toNat ≤ r.2))

/-- Python `str.isdigit`: nonempty and every character a digit character. -/
def pyIsdigit (s : String) : Bool :=
  !s.data.isEmpty && s.data.all isDigitChar

/-- Python `int(s)` on a string that passed `isdigit` (such a string has no
sign, whitespace or underscores, so `int` succeeds exactly when every
character is a decimal digit, producing its base-10 value; on any
Numeric_Type=Digit character it raises `ValueError`, modelled as `none`). -/
def pyIntOfDigits (s : String) : Option Nat :=
  s.data.foldl
    (fun acc c =>
      match acc, decDigitVal c with
      | some n, some d => some (n * 10 + d)
      | _, _ => none)
    (some 0)

/-- `PeopleTab.on_add`: the RegisterPerson operation as the user reaches it.
Validates the three entry strings exactly as the handler does
(`if not name or not area`, `if age and not age.isdigit()`), then calls
`add_person(name, area, int(age) if age else None)`; `int` runs before
`add_person`, so a `ValueError` escapes the handler with nothing inserted.
Returns the resulting store and how the call ended; when no row is
inserted the store is returned unchanged. -/
def registerPerson (db : DB) (name area ageStr : String) : DB × Option OpError :=
  if name = "" ∨ area = "" then (db, some .validationError)
  else if ageStr ≠ "" ∧ pyIsdigit ageStr = false then (db, some .validationError)
  else if ageStr = "" then (add_person db name area none, none)
  else
    match pyIntOfDigits ageStr with
    | none => (db, some .uncaughtValueError)
    | some n => (add_person db name area (some n), none)

/-! ## Query layer -/

/-- Descending order on a `Nat` key: `a` comes before `b` when its key is at
least `b`'s.  Used to model `ORDER BY ... DESC`. -/
def keyDesc (f : α → Nat) (a b : α) : Prop := f b ≤ f a

instance (f : α → Nat) : DecidableRel (keyDesc f) := fun a b => Nat.decLe (f b) (f a)

instance (f : α → Nat) : IsTotal α (keyDesc f) := ⟨fun a b => Nat.le_total (f b) (f a)⟩

instance (f : α → Nat) : IsTrans α (keyDesc f) :=
  ⟨fun _ _ _ h₁ h₂ => Nat.le_trans h₂ h₁⟩

/-- `COALESCE(age,'')` as rendered into the result row. -/
def renderAge : Option Nat → String
  | none => ""
  | some a => toString a

/-- `list_people`: `SELECT id,name,area,COALESCE(age,'') FROM people ORDER BY id DESC`. -/
def list_people (db : DB) : List (Nat × String × String × String) :=
  (List.insertionSort (keyDesc Person.id) db.people).map
    (fun p => (p.id, p.name, p.area, renderAge p.age))

/-- `list_aid_types`: `SELECT aid_name FROM aid_types ORDER BY aid_name`. -/
def list_aid_types (db : DB) : List String :=
  List.insertionSort (· ≤ ·) db.aid_types

/-- The deliveries joined to a request by `d.request_id = r.id`, in table order. -/
def delivsFor (db : DB) (r : AidRequest) : List AidDelivery :=
  db.deliveries.filter (fun d => d.request_id == r.id)

/-- The people joined to a request by `p.id = r.person_id`, in table order
(`id` is a primary key, so on real stores this has at most one element). -/
def peopleFor (db : DB) (r : AidRequest) : List Person :=
  db.people.filter (fun p => p.id == r.person_id)

/-- The rows one request contributes to `list_pending_requests`: the left
join pairs the request with its people and its deliveries, and the
`WHERE d.id IS NULL` filter keeps a (single) row exactly when the delivery
side of the left join is NULL, i.e. when no delivery references the request. -/
def pendingBlock (db : DB) (r : AidRequest) : List (Nat × String × String × String × String) :=
  (peopleFor db r).flatMap (fun p =>
    if delivsFor db r = [] then [(r.id, p.name, p.area, r.aid_type, r.request_date)]
    else [])

/-- `list_pending_requests`:
`SELECT r.id,p.name,p.area,r.aid_type,r.request_date FROM aid_requests r
 JOIN people p ON p.id=r.person_id LEFT JOIN aid_delivered d ON d.request_id=r.id
 WHERE d.id IS NULL ORDER BY r.id DESC`. -/
def list_pending_requests (db : DB) : List (Nat × String × String × String × String) :=
  (List.insertionSort (keyDesc AidRequest.id) db.requests).flatMap (pendingBlock db)

/-- ASCII case folding: SQLite's default `LIKE` treats the upper- and
lower-case variants of the 26 ASCII letters as equal (`Char.toLower` lowers
exactly ASCII upper-case letters). -/
def charFold (c : Char) : Char := c.toLower

/-- SQLite `LIKE`, fuel-indexed so that the definition is structurally
recursive (any fuel above `pat.length + s.length` gives the fixpoint):
`%` matches any (possibly empty) run, `_` any single character, and other
pattern characters match up to ASCII case. -/
def likeMatchF : Nat → List Char → List Char → Bool
  | 0, _, _ => false
  | fuel + 1, pat, s =>
    match pat, s with
    | [], [] => true
    | [], _ :: _ => false
    | '%' :: ps, s =>
      likeMatchF fuel ps s ||
        (match s with
         | [] => false
         | _ :: t => likeMatchF fuel ('%' :: ps) t)
    | '_' :: _, [] => false
    | '_' :: ps, _ :: t => likeMatchF fuel ps t
    | _ :: _, [] => false
    | p :: ps, c :: t => (charFold p == charFold c) && likeMatchF fuel ps t

/-- SQLite `expr LIKE pattern`. -/
def likeMatch (pat s : List Char) : Bool :=
  likeMatchF (pat.length + s.length + 1) pat s

/-- The pattern `f"%{area}%"` bound to the `p.area LIKE ?` placeholder. -/
def likePattern (area : String) : List Char := '%' :: (area.data ++ ['%'])

/-- The `WHERE` conjunct contributed by the area entry: absent when the entry
is empty (`if area:`), otherwise `p.area LIKE '%area%'`. -/
def areaPass (area : String) (p : Person) : Bool :=
  if area = "" then true else likeMatch (likePattern area) p.area.data

/-- The `WHERE` conjunct contributed by the status combo: `d.id IS NULL` for
`Pending`, `d.id IS NOT NULL` for `Delivered`, absent otherwise. -/
def statusPass (status : String) (dOpt : Option AidDelivery) : Bool :=
  if status = "Pending" then dOpt.isNone
  else if status = "Delivered" then dOpt.isSome
  else true

/-- One row of `search`, with the `CASE WHEN d.id IS NULL THEN 'PENDING' ELSE
d.delivery_date END` column last. -/
def rowOf (r : AidRequest) (p : Person) (dOpt : Option AidDelivery) :
    String × String × String × String × String :=
  (p.name, p.area, r.aid_type, r.request_date,
    match dOpt with
    | none => "PENDING"
    | some d => d.delivery_date)

/-- The `aid_requests r JOIN people p LEFT JOIN aid_delivered d` rows produced
for one request: one row per joined person and delivery, and the NULL delivery
row when no delivery matches. -/
def joinRows (db : DB) (r : AidRequest) : List (Person × Option AidDelivery) :=
  (peopleFor db r).flatMap (fun p =>
    match delivsFor db r with
    | [] => [(p, none)]
    | ds => ds.map (fun d => (p, some d)))

/-- The rows one request contributes to `search`: its join rows, filtered by
the dynamically assembled `WHERE` clause, projected to the output columns. -/
def searchBlock (db : DB) (area status : String) (r : AidRequest) :
    List (String × String × String × String × String) :=
  ((joinRows db r).filter (fun pr => areaPass area pr.1 && statusPass status pr.2)).map
    (fun pr => rowOf r pr.1 pr.2)

/-- `search(area, status)`: the three-table join, filtered by the dynamically
assembled `WHERE` clause, `ORDER BY r.id DESC`. -/
def search (db : DB) (area status : String) :
    List (String × String × String × String × String) :=
  (List.insertionSort (keyDesc AidRequest.id) db.requests).flatMap (searchBlock db area status)

/-- The `p.area` value of each row of
`aid_delivered d JOIN aid_requests r JOIN people p`, in scan order. -/
def joinedAreas (db : DB) : List String :=
  db.deliveries.flatMap (fun d =>
    (db.requests.filter (fun r => r.id == d.request_id)).flatMap (fun r =>
      (db.people.filter (fun p => p.id == r.person_id)).map (fun p => p.area)))

/-- `delivered_summary_by_area`:
`SELECT p.area,COUNT(*) FROM aid_delivered d JOIN aid_requests r JOIN people p
 GROUP BY p.area ORDER BY COUNT(*) DESC` — one row per distinct joined area
with the number of join rows carrying it, sorted by count descending. -/
def delivered_summary_by_area (db : DB) : List (String × Nat) :=
  List.insertionSort (keyDesc Prod.snd)
    ((joinedAreas db).dedup.map (fun a => (a, (joinedAreas db).count a)))

/-- `SELECT COUNT(*) FROM aid_delivered` (ReportsTab.refresh). -/
def countDeliveries (db : DB) : Nat := db.deliveries.length

/-- `SELECT COUNT(*) FROM aid_requests` (ReportsTab.refresh). -/
def countRequests (db : DB) : Nat := db.requests.length

/-! ## Store invariants

The data-model invariants of the specification (§3): unique ids per entity
type and no dangling references.  (They are what `init_db`'s FOREIGN KEY
declarations assert; the query-layer claims quantify over stores satisfying
them.) -/

/-- Well-formed store: ids are unique per table, every request's person and
every delivery's request exist. -/
def DB.wf (db : DB) : Prop :=
  (db.people.map Person.id).Nodup ∧
  (db.requests.map AidRequest.id).Nodup ∧
  (∀ r ∈ db.requests, ∃ p ∈ db.people, p.id = r.person_id) ∧
  (∀ d ∈ db.deliveries, ∃ r ∈ db.requests, r.id = d.request_id)

instance (db : DB) : Decidable db.wf := by
  unfold DB.wf; infer_instance

/-! ## Export adapter (`export_to_csv`)

`csv.writer` with the default dialect: fields comma-separated, records
terminated by `"\r\n"`, `QUOTE_MINIMAL` quoting (a field is quoted iff it
contains the delimiter, the quote character or a line-terminator character;
quotes are doubled inside quoted fields; additionally a record whose only
field is the empty string is written as `""` so it stays distinguishable
from an empty record).  The file contents are modelled as the character
list written through the adapter. -/

/-- Characters that force `QUOTE_MINIMAL` to quote a field: the delimiter,
the quote char and the characters of the line terminator. -/
def csvSpecial (c : Char) : Bool := c == ',' || c == '"' || c == '\r' || c == '\n'

/-- Whether `csv.writer` quotes this field. -/
def csvNeedsQuote (s : String) : Bool := s.data.any csvSpecial

/-- Double each quote character (the `doublequote=True` escape). -/
def csvEscQuotes : List Char → List Char
  | [] => []
  | c :: cs => if c = '"' then '"' :: '"' :: csvEscQuotes cs else c :: csvEscQuotes cs

/-- One encoded field. -/
def csvEncCell (s : String) : List Char :=
  if csvNeedsQuote s then '"' :: (csvEscQuotes s.data ++ ['"']) else s.data

/-- The comma-joined encoded fields of a record. -/
def csvEncFields : List String → List Char
  | [] => []
  | [s] => csvEncCell s
  | s :: ss => csvEncCell s ++ ',' :: csvEncFields ss

/-- One encoded record including the `"\r\n"` terminator.  A record whose only
field is empty is written quoted (`csv.writer`'s lone-empty-field rule). -/
def csvEncRec (r : List String) : List Char :=
  (if r = [""] then ['"', '"'] else csvEncFields r) ++ ['\r', '\n']

/-- `export_to_csv(data, filename)`: `csv.writer(f).writerows(data)` — the
bytes written to the destination file. -/
def export_to_csv (data : List (List String)) : List Char :=
  (data.map csvEncRec).flatten

/-- Scanner state of the delimited-text reader.  `afterCR` means the record
was just closed by a `'\r'` whose optional `'\n'` partner is still to be
consumed. -/
inductive CsvMode where
  | fieldStart
  | unquoted
  | quoted
  | afterQuote
  | afterCR
deriving DecidableEq, Repr

/-- Close the current record: the accumulated earlier fields plus the current
field, each turned back into a string. -/
def csvCloseRec (row : List (List Char)) (field : List Char) : List String :=
  (row ++ [field]).map String.mk

/-- A standard delimited-text reader (the behaviour of Python `csv.reader` on
a file opened with `newline=''`): `,` separates fields, `"\r\n"` (or a lone
`'\r'` or `'\n'`) ends a record, a field starting with `"` is read up to the
closing quote with doubled quotes unescaped, a blank line is the empty
record, and a final record needs no trailing terminator. -/
def csvScan (input : List Char) (m : CsvMode) (field : List Char)
    (row : List (List Char)) : List (List String) :=
  match input with
  | [] =>
    match m with
    | .fieldStart => if row = [] then [] else [csvCloseRec row field]
    | .afterCR => []
    | _ => [csvCloseRec row field]
  | c :: rest =>
    match m with
    | .quoted =>
      if c = '"' then csvScan rest .afterQuote field row
      else csvScan rest .quoted (field ++ [c]) row
    | .fieldStart =>
      if c = '"' then csvScan rest .quoted field row
      else if c = ',' then csvScan rest .fieldStart [] (row ++ [field])
      else if c = '\r' then
        (if row = [] then [] else csvCloseRec row field) :: csvScan rest .afterCR [] []
      else if c = '\n' then
        (if row = [] then [] else csvCloseRec row field) :: csvScan rest .fieldStart [] []
      else csvScan rest .unquoted (field ++ [c]) row
    | .unquoted =>
      if c = ',' then csvScan rest .fieldStart [] (row ++ [field])
      else if c = '\r' then csvCloseRec row field :: csvScan rest .afterCR [] []
      else if c = '\n' then csvCloseRec row field :: csvScan rest .fieldStart [] []
      else csvScan rest .unquoted (field ++ [c]) row
    | .afterQuote =>
      if c = '"' then csvScan rest .quoted (field ++ ['"']) row
      else if c = ',' then csvScan rest .fieldStart [] (row ++ [field])
      else if c = '\r' then csvCloseRec row field :: csvScan rest .afterCR [] []
      else if c = '\n' then csvCloseRec row field :: csvScan rest .fieldStart [] []
      else csvScan rest .unquoted (field ++ [c]) row
    | .afterCR =>
      -- like `fieldStart` on an empty record-in-progress, except that a
      -- leading `'\n'` completes the preceding `'\r'` terminator silently
      if c = '\n' then csvScan rest .fieldStart [] []
      else if c = '"' then csvScan rest .quoted [] []
      else if c = ',' then csvScan rest .fieldStart [] [[]]
      else if c = '\r' then ([] : List String) :: csvScan rest .afterCR [] []
      else csvScan rest .unquoted [c] []

/-- Parse a whole file. -/
def csvParse (input : List Char) : List (List String) :=
  csvScan input .fieldStart [] []

/-! ## Spec-side definitions

Definitions written from the specification's words, to be compared against
the embedded code. -/

/-- Case-sensitive prefix test (spec words, for comparison with `LIKE`). -/
def csIsPrefix : List Char → List Char → Bool
  | _, [] => true
  | [], _ :: _ => false
  | a :: as, b :: bs => a == b && csIsPrefix as bs

/-- Case-sensitive substring containment — the matching the claim asserts
for the area filter ("contains the non-empty area filter as a case-sensitive
substring"). -/
def csContains : List Char → List Char → Bool
  | [], needle => needle.isEmpty
  | hay@(_ :: t), needle => csIsPrefix hay needle || csContains t needle

/-- The search result as the (amended) claim describes it: requests in
descending id order; for each, the person it references (ids are unique);
requests whose person's area fails the non-empty filter (SQLite `LIKE`,
ASCII-case-insensitive, `%`/`_` wildcards) are dropped; `Pending` keeps
exactly the undelivered requests as one `PENDING` row, `Delivered` yields
one row per delivery carrying that delivery's date, and any other status
applies no restriction. -/
def specSearch (db : DB) (area status : String) :
    List (String × String × String × String × String) :=
  (List.insertionSort (keyDesc AidRequest.id) db.requests).flatMap (fun r =>
    match db.people.find? (fun p => p.id == r.person_id) with
    | none => []
    | some p =>
      if area ≠ "" ∧ likeMatch (likePattern area) p.area.data = false then []
      else if status = "Pending" then
        if delivsFor db r = [] then
          [(p.name, p.area, r.aid_type, r.request_date, "PENDING")]
        else []
      else if status = "Delivered" then
        (delivsFor db r).map
          (fun d => (p.name, p.area, r.aid_type, r.request_date, d.delivery_date))
      else
        if delivsFor db r = [] then
          [(p.name, p.area, r.aid_type, r.request_date, "PENDING")]
        else
          (delivsFor db r).map
            (fun d => (p.name, p.area, r.aid_type, r.request_date, d.delivery_date)))

/-- The area a delivery is attributed to: the area of the person referenced
by the delivery's request, when both exist. -/
def delivAreaOpt (db : DB) (d : AidDelivery) : Option String :=
  (db.requests.find? (fun r => r.id == d.request_id)).bind (fun r =>
    (db.people.find? (fun p => p.id == r.person_id)).map Person.area)

/-! ## Concrete stores used as counterexamples and witnesses

Each is reached from a fresh database through the program's own mutation
operations. -/

/-- One person, one request, and `mark_delivered` called twice against the
same request (the second call is not rejected — §4.2 of the spec). -/
def dbDouble : DB :=
  mark_delivered
    (mark_delivered
      (add_request (add_person (init_db emptyDB) "Asha" "North" (some 34)) 1 "Food" "2024-01-10")
      1 "Rice 5kg" "2024-01-12")
    1 "Rice 5kg" "2024-01-13"

/-- One person in area `"North"`, one pending request. -/
def dbCase : DB :=
  add_request (add_person (init_db emptyDB) "Asha" "North" (some 34)) 1 "Food" "2024-01-10"

/-- Two identical requests of one person; the second is delivered with the
delivery date entry set to the literal text `PENDING`. -/
def dbLit : DB :=
  mark_delivered
    (add_request
      (add_request (add_person (init_db emptyDB) "Asha" "North" (some 34)) 1 "Food" "2024-01-10")
      1 "Food" "2024-01-10")
    2 "Rice 5kg" "PENDING"

/-- Two people in two areas; three requests; two of them delivered. -/
def dbMix : DB :=
  mark_delivered
    (mark_delivered
      (add_request
        (add_request
          (add_request
            (add_person (add_person (init_db emptyDB) "Asha" "North" (some 34)) "Biju" "South" none)
            1 "Food" "2024-01-10")
          2 "Water" "2024-01-11")
        1 "Medicine" "2024-01-11")
      1 "Rice 5kg" "2024-01-12")
    3 "Paracetamol" "2024-01-13"

/-! ## Helper lemmas -/

theorem mem_foldl_insertAidType (l : List String) (db : DB) (s : String)
    (h : s ∈ db.aid_types) : s ∈ (l.foldl insertAidType db).aid_types := by
  induction l generalizing db with
  | nil => exact h
  | cons n t ih =>
    refine ih (insertAidType db n) ?_
    unfold insertAidType
    split
    · exact h
    · exact List.mem_append_left _ h

theorem seed_mem_foldl_insertAidType (l : List String) (db : DB) (s : String)
    (h : s ∈ l) : s ∈ (l.foldl insertAidType db).aid_types := by
  induction l generalizing db with
  | nil => cases h
  | cons n t ih =>
    rcases List.mem_cons.mp h with rfl | hs
    · refine mem_foldl_insertAidType t _ _ ?_
      unfold insertAidType
      split
      · assumption
      · exact List.mem_append_right _ (List.mem_singleton.mpr rfl)
    · exact ih (insertAidType db n) hs

theorem foldl_insertAidType_of_mem (l : List String) (db : DB)
    (h : ∀ s ∈ l, s ∈ db.aid_types) : l.foldl insertAidType db = db := by
  induction l generalizing db with
  | nil => rfl
  | cons n t ih =>
    have hn : insertAidType db n = db := by
      unfold insertAidType
      exact if_pos (h n (List.mem_cons_self n t))
    rw [List.foldl_cons, hn]
    exact ih db (fun s hs => h s (List.mem_cons_of_mem n hs))

theorem sum_map_add_distrib {α} (f g : α → Nat) (l : List α) :
    (l.map (fun a => f a + g a)).sum = (l.map f).sum + (l.map g).sum := by
  induction l with
  | nil => rfl
  | cons a t ih => simp [ih]; omega

theorem sum_map_ite_one {α} (p : α → Bool) (l : List α) :
    (l.map (fun a => if p a = true then 1 else 0)).sum = l.countP p := by
  induction l with
  | nil => rfl
  | cons a t ih =>
    by_cases h : p a = true
    · simp [List.countP_cons, h, ih]
      omega
    · simp [List.countP_cons, h, ih]

/-- Counting Fubini: summing, over `l`, the matches in `m` equals summing,
over `m`, the matches in `l`. -/
theorem sum_countP_swap {α β} (R : α → β → Bool) (l : List α) (m : List β) :
    (l.map (fun a => m.countP (fun b => R a b))).sum =
      (m.map (fun b => l.countP (fun a => R a b))).sum := by
  induction l with
  | nil => simp
  | cons a t ih =>
    have : (m.map (fun b => List.countP (fun a => R a b) (a :: t))).sum =
        (m.map (fun b => (if R a b then 1 else 0) + t.countP (fun x => R x b))).sum := by
      refine congrArg List.sum (List.map_congr_left ?_)
      intro b _
      rw [List.countP_cons]
      omega
    rw [List.map_cons, List.sum_cons, this, sum_map_add_distrib, ih, sum_map_ite_one]

/-- In a list whose keys are distinct, the filter on one key is the singleton
of the `find?` result (empty when absent). -/
theorem filter_key_of_nodup {α} (key : α → Nat) (l : List α)
    (hnd : (l.map key).Nodup) (x : Nat) :
    l.filter (fun a => key a == x) = (l.find? (fun a => key a == x)).toList := by
  induction l with
  | nil => rfl
  | cons a t ih =>
    rw [List.map_cons, List.nodup_cons] at hnd
    by_cases h : key a = x
    · have ht : t.filter (fun b => key b == x) = [] := by
        refine List.filter_eq_nil_iff.mpr ?_
        intro b hb hbeq
        have hbx : key b = x := by simpa using hbeq
        exact hnd.1 ((h.trans hbx.symm) ▸ List.mem_map_of_mem key hb)
      rw [List.filter_cons, if_pos (by simpa using h), List.find?_cons_of_pos _ (by simpa using h), ht]
      rfl
    · rw [List.filter_cons, if_neg (by simpa using h), List.find?_cons_of_neg _ (by simpa using h)]
      exact ih hnd.2

/-- With distinct keys, a keyed count is 0 or 1 according to presence. -/
theorem countP_key_of_nodup {α} (key : α → Nat) (l : List α)
    (hnd : (l.map key).Nodup) (x : Nat) :
    l.countP (fun a => key a == x) =
      if (l.find? (fun a => key a == x)).isSome then 1 else 0 := by
  rw [List.countP_eq_length_filter, filter_key_of_nodup key l hnd x]
  cases h : l.find? (fun a => key a == x) <;> simp

/-- Summing a function that is zero except at the unique element with a
given key. -/
theorem sum_map_ite_key {α} (key : α → Nat) (g : α → Nat) (l : List α)
    (hnd : (l.map key).Nodup) (a : α) (ha : a ∈ l) :
    (l.map (fun x => if key x = key a then g x else 0)).sum = g a := by
  induction l with
  | nil => cases ha
  | cons b t ih =>
    rw [List.map_cons, List.nodup_cons] at hnd
    rcases List.mem_cons.mp ha with rfl | hat
    · have ht : (t.map (fun x => if key x = key a then g x else 0)).sum = 0 := by
        refine List.sum_eq_zero ?_
        intro v hv
        obtain ⟨x, hx, rfl⟩ := List.mem_map.mp hv
        rw [if_neg]
        intro hxa
        exact hnd.1 (hxa ▸ List.mem_map_of_mem key hx)
      simp [ht]
    · have hb : key b ≠ key a := by
        intro hba
        exact hnd.1 (hba ▸ List.mem_map_of_mem key hat)
      simp only [List.map_cons, List.sum_cons, if_neg hb, ih hnd.2 hat, Nat.zero_add]

/-- `flatMap` into optional singletons is `filterMap`. -/
theorem flatMap_toList_eq_filterMap {α β} (g : α → Option β) (l : List α) :
    (l.flatMap (fun a => (g a).toList)) = l.filterMap g := by
  induction l with
  | nil => rfl
  | cons a t ih => cases h : g a <;> simp [List.flatMap_cons, h, ih]

/-- Length of a `filterMap` that never drops. -/
theorem length_filterMap_of_all_isSome {α β} (g : α → Option β) (l : List α)
    (h : ∀ a ∈ l, (g a).isSome) : (l.filterMap g).length = l.length := by
  induction l with
  | nil => rfl
  | cons a t ih =>
    obtain ⟨b, hb⟩ := Option.isSome_iff_exists.mp (h a (List.mem_cons_self a t))
    rw [List.filterMap_cons, hb]
    simp only [List.length_cons, ih (fun x hx => h x (List.mem_cons_of_mem a hx))]

/-- The keys of a `flatMap` whose blocks carry constant keys, taken in an
order sorted for the block keys, are sorted descending. -/
theorem sorted_map_key_flatMap {α β} (l : List α) (f : α → List β) (k : β → Nat)
    (g : α → Nat) (hl : List.Pairwise (keyDesc g) l)
    (hconst : ∀ a ∈ l, ∀ x ∈ f a, k x = g a) :
    List.Sorted (fun x y : Nat => y ≤ x) ((l.flatMap f).map k) := by
  induction l with
  | nil => exact List.Pairwise.nil
  | cons a t ih =>
    rw [List.pairwise_cons] at hl
    rw [List.flatMap_cons, List.map_append]
    refine List.pairwise_append.mpr ⟨?_, ?_, ?_⟩
    · refine List.pairwise_of_forall_mem_list ?_
      intro u hu v hv
      obtain ⟨x, hx, rfl⟩ := List.mem_map.mp hu
      obtain ⟨y, hy, rfl⟩ := List.mem_map.mp hv
      rw [hconst a (List.mem_cons_self a t) x hx, hconst a (List.mem_cons_self a t) y hy]
    · exact ih hl.2 (fun b hb => hconst b (List.mem_cons_of_mem a hb))
    · intro u hu v hv
      obtain ⟨x, hx, rfl⟩ := List.mem_map.mp hu
      obtain ⟨y, hy, rfl⟩ := List.mem_map.mp hv
      obtain ⟨b, hb, hyb⟩ := List.mem_flatMap.mp hy
      rw [hconst a (List.mem_cons_self a t) x hx,
        hconst b (List.mem_cons_of_mem a hb) y hyb]
      exact hl.1 b hb

/-- A `flatMap` whose blocks each split as a permutation splits as a whole. -/
theorem perm_flatMap_split {α β} (l : List α) (f g h : α → List β)
    (hsplit : ∀ a ∈ l, (f a).Perm (g a ++ h a)) :
    (l.flatMap f).Perm (l.flatMap g ++ l.flatMap h) := by
  induction l with
  | nil => simp
  | cons a t ih =>
    simp only [List.flatMap_cons]
    refine ((hsplit a (List.mem_cons_self a t)).append
      (ih (fun b hb => hsplit b (List.mem_cons_of_mem a hb)))).trans ?_
    rw [List.append_assoc, List.append_assoc]
    refine List.Perm.append_left (g a) ?_
    exact List.perm_append_comm_assoc (h a) (t.flatMap g) (t.flatMap h)

theorem beq_nat_comm (a b : Nat) : (a == b) = (b == a) := by
  by_cases h : a = b
  · simp [h]
  · simp [h, Ne.symm h]

theorem isSome_eq_not_isNone {α} (d : Option α) : d.isSome = !d.isNone := by
  cases d <;> rfl

theorem any_eq_isSome_find {α} (l : List α) (p : α → Bool) :
    l.any p = (l.find? p).isSome := by
  rw [Bool.eq_iff_iff, List.any_eq_true, List.find?_isSome]

theorem flatMap_singleton_eq_map {α β} (l : List α) (g : α → β) :
    l.flatMap (fun a => [g a]) = l.map g := by
  induction l with
  | nil => rfl
  | cons a t ih => simp [List.flatMap_cons, ih]

theorem sum_map_len_const {α} (l : List α) (k : Nat) :
    (l.map (fun _ => k)).sum = l.length * k := by
  induction l with
  | nil => simp
  | cons a t ih => simp [ih, Nat.succ_mul]; omega

/-! ### Join building blocks -/

theorem peopleFor_eq_find (db : DB) (hnd : (db.people.map Person.id).Nodup)
    (r : AidRequest) :
    peopleFor db r = (db.people.find? (fun p => p.id == r.person_id)).toList := by
  unfold peopleFor
  exact filter_key_of_nodup Person.id db.people hnd r.person_id

theorem length_peopleFor (db : DB) (hnd : (db.people.map Person.id).Nodup)
    (r : AidRequest) (hex : ∃ p ∈ db.people, p.id = r.person_id) :
    (peopleFor db r).length = 1 := by
  rw [peopleFor_eq_find db hnd r]
  obtain ⟨p, hp, hpid⟩ := hex
  have hs : (db.people.find? (fun p => p.id == r.person_id)).isSome :=
    List.find?_isSome.mpr ⟨p, hp, by simpa using hpid⟩
  cases h : db.people.find? (fun p => p.id == r.person_id) with
  | none => rw [h] at hs; cases hs
  | some q => rfl

theorem pendingBlock_eq (db : DB) (r : AidRequest) :
    pendingBlock db r =
      if delivsFor db r = [] then
        (peopleFor db r).map (fun p => (r.id, p.name, p.area, r.aid_type, r.request_date))
      else [] := by
  unfold pendingBlock
  by_cases h : delivsFor db r = []
  · rw [if_pos h]
    refine (List.flatMap_congr (fun p _ => if_pos h)).trans (flatMap_singleton_eq_map _ _)
  · rw [if_neg h]
    refine (List.flatMap_congr (fun p _ => if_neg h)).trans (by simp)

theorem fst_of_mem_pendingBlock (db : DB) (r : AidRequest) :
    ∀ row ∈ pendingBlock db r, row.1 = r.id := by
  intro row hrow
  rw [pendingBlock_eq] at hrow
  by_cases h : delivsFor db r = []
  · rw [if_pos h] at hrow
    obtain ⟨p, _, rfl⟩ := List.mem_map.mp hrow
    rfl
  · rw [if_neg h] at hrow
    cases hrow

theorem length_pendingBlock (db : DB) (r : AidRequest) :
    (pendingBlock db r).length =
      if delivsFor db r = [] then (peopleFor db r).length else 0 := by
  rw [pendingBlock_eq]
  by_cases h : delivsFor db r = []
  · rw [if_pos h, if_pos h, List.length_map]
  · rw [if_neg h, if_neg h]; rfl

theorem countP_pendingBlock (db : DB) (r' : AidRequest) (rid : Nat) :
    (pendingBlock db r').countP (fun row => row.1 == rid) =
      if r'.id = rid then (pendingBlock db r').length else 0 := by
  by_cases h : r'.id = rid
  · rw [if_pos h]
    refine List.countP_eq_length.mpr ?_
    intro row hrow
    rw [fst_of_mem_pendingBlock db r' row hrow, h]
    exact beq_self_eq_true rid
  · rw [if_neg h]
    refine List.countP_eq_zero.mpr ?_
    intro row hrow
    rw [fst_of_mem_pendingBlock db r' row hrow]
    simpa using h

/-- The number of `list_pending_requests` rows carrying a given request's id:
one when the request is undelivered, zero otherwise. -/
theorem pending_countP (db : DB) (hwf : db.wf) (r : AidRequest)
    (hr : r ∈ db.requests) :
    (list_pending_requests db).countP (fun row => row.1 == r.id) =
      if delivsFor db r = [] then 1 else 0 := by
  obtain ⟨hnd_p, hnd_r, hex, _⟩ := hwf
  unfold list_pending_requests
  rw [List.countP_flatMap]
  rw [(((List.perm_insertionSort (keyDesc AidRequest.id) db.requests)).map _).sum_eq]
  have h1 : db.requests.map ((List.countP fun row => row.1 == r.id) ∘ pendingBlock db) =
      db.requests.map (fun r' => if r'.id = r.id then (pendingBlock db r').length else 0) :=
    List.map_congr_left (fun r' _ => countP_pendingBlock db r' r.id)
  rw [h1]
  rw [sum_map_ite_key AidRequest.id (fun r' => (pendingBlock db r').length) db.requests hnd_r r hr]
  rw [length_pendingBlock]
  by_cases h : delivsFor db r = []
  · rw [if_pos h, if_pos h, length_peopleFor db hnd_p r (hex r hr)]
  · rw [if_neg h, if_neg h]

theorem mem_list_pending (db : DB) (row : Nat × String × String × String × String)
    (hrow : row ∈ list_pending_requests db) :
    ∃ r ∈ db.requests, ∃ p ∈ db.people,
      p.id = r.person_id ∧ delivsFor db r = [] ∧
      row = (r.id, p.name, p.area, r.aid_type, r.request_date) := by
  obtain ⟨r, hr, hrb⟩ := List.mem_flatMap.mp hrow
  have hr' : r ∈ db.requests :=
    (List.perm_insertionSort (keyDesc AidRequest.id) db.requests).mem_iff.mp hr
  rw [pendingBlock_eq] at hrb
  by_cases h : delivsFor db r = []
  · rw [if_pos h] at hrb
    obtain ⟨p, hp, rfl⟩ := List.mem_map.mp hrb
    have hpm := List.mem_filter.mp hp
    exact ⟨r, hr', p, hpm.1, by simpa using hpm.2, h, rfl⟩
  · rw [if_neg h] at hrb
    cases hrb

/-! ### Search building blocks -/

theorem areaPass_empty (p : Person) : areaPass "" p = true := by
  unfold areaPass
  rw [if_pos rfl]

theorem statusPass_all (d : Option AidDelivery) : statusPass "All" d = true := by
  unfold statusPass
  rw [if_neg (by decide), if_neg (by decide)]

theorem statusPass_pending (d : Option AidDelivery) : statusPass "Pending" d = d.isNone := by
  unfold statusPass
  rw [if_pos rfl]

theorem statusPass_delivered (d : Option AidDelivery) : statusPass "Delivered" d = d.isSome := by
  unfold statusPass
  rw [if_neg (by decide), if_pos rfl]

theorem searchBlock_all_perm (db : DB) (r : AidRequest) :
    (searchBlock db "" "All" r).Perm
      (searchBlock db "" "Pending" r ++ searchBlock db "" "Delivered" r) := by
  unfold searchBlock
  have hA : (joinRows db r).filter (fun pr => areaPass "" pr.1 && statusPass "All" pr.2) =
      joinRows db r := by
    refine List.filter_eq_self.mpr ?_
    intro pr _
    rw [areaPass_empty, statusPass_all]
    rfl
  have hP : (joinRows db r).filter (fun pr => areaPass "" pr.1 && statusPass "Pending" pr.2) =
      (joinRows db r).filter (fun pr => pr.2.isNone) := by
    refine List.filter_congr ?_
    intro pr _
    rw [areaPass_empty, statusPass_pending, Bool.true_and]
  have hD : (joinRows db r).filter (fun pr => areaPass "" pr.1 && statusPass "Delivered" pr.2) =
      (joinRows db r).filter (fun pr => !pr.2.isNone) := by
    refine List.filter_congr ?_
    intro pr _
    rw [areaPass_empty, statusPass_delivered, Bool.true_and, isSome_eq_not_isNone]
  rw [hA, hP, hD, ← List.map_append]
  exact ((List.filter_append_perm (fun pr => pr.2.isNone) (joinRows db r)).map _).symm

/-- `search` with no area filter splits, as a multiset, into its pending and
delivered parts. -/
theorem search_split_perm (db : DB) :
    (search db "" "All").Perm (search db "" "Pending" ++ search db "" "Delivered") := by
  unfold search
  exact perm_flatMap_split _ _ _ _ (fun r _ => searchBlock_all_perm db r)

theorem joinRows_of_no_deliv (db : DB) (r : AidRequest) (h : delivsFor db r = []) :
    joinRows db r = (peopleFor db r).map (fun p => (p, none)) := by
  unfold joinRows
  rw [h]
  exact flatMap_singleton_eq_map _ _

theorem joinRows_of_deliv (db : DB) (r : AidRequest) (d : AidDelivery)
    (ds : List AidDelivery) (h : delivsFor db r = d :: ds) :
    joinRows db r =
      (peopleFor db r).flatMap (fun p => (d :: ds).map (fun dd => (p, some dd))) := by
  unfold joinRows
  rw [h]

theorem length_searchBlock_delivered (db : DB) (r : AidRequest) :
    (searchBlock db "" "Delivered" r).length =
      (peopleFor db r).length * (delivsFor db r).length := by
  unfold searchBlock
  cases h : delivsFor db r with
  | nil =>
    rw [joinRows_of_no_deliv db r h]
    have : ((peopleFor db r).map (fun p => (p, (none : Option AidDelivery)))).filter
        (fun pr => areaPass "" pr.1 && statusPass "Delivered" pr.2) = [] := by
      refine List.filter_eq_nil_iff.mpr ?_
      intro pr hpr
      obtain ⟨p, _, rfl⟩ := List.mem_map.mp hpr
      rw [areaPass_empty, statusPass_delivered]
      simp
    rw [this]
    simp
  | cons d ds =>
    rw [joinRows_of_deliv db r d ds h]
    have hall : ((peopleFor db r).flatMap
        (fun p => (d :: ds).map (fun dd => (p, some dd)))).filter
        (fun pr => areaPass "" pr.1 && statusPass "Delivered" pr.2) =
        (peopleFor db r).flatMap (fun p => (d :: ds).map (fun dd => (p, some dd))) := by
      refine List.filter_eq_self.mpr ?_
      intro pr hpr
      obtain ⟨p, _, hpr2⟩ := List.mem_flatMap.mp hpr
      obtain ⟨dd, _, rfl⟩ := List.mem_map.mp hpr2
      rw [areaPass_empty, statusPass_delivered]
      rfl
    rw [hall, List.length_map, List.length_flatMap]
    have hlen : (peopleFor db r).map (List.length ∘ fun p => (d :: ds).map (fun dd => (p, some dd))) =
        (peopleFor db r).map (fun _ => (d :: ds).length) := by
      refine List.map_congr_left ?_
      intro p _
      simp [Function.comp]
    rw [hlen, sum_map_len_const]

/-- The number of rows of `search(area="", status="Delivered")`: one per
delivery whose request exists (and, through the invariants, has its person). -/
theorem search_delivered_length (db : DB) (hwf : db.wf) :
    (search db "" "Delivered").length =
      db.deliveries.countP (fun d => db.requests.any (fun r => r.id == d.request_id)) := by
  obtain ⟨hnd_p, hnd_r, hex, _⟩ := hwf
  unfold search
  rw [List.length_flatMap]
  rw [(((List.perm_insertionSort (keyDesc AidRequest.id) db.requests)).map _).sum_eq]
  have h1 : db.requests.map (List.length ∘ searchBlock db "" "Delivered") =
      db.requests.map (fun r => db.deliveries.countP (fun d => d.request_id == r.id)) := by
    refine List.map_congr_left ?_
    intro r hr
    have : (List.length ∘ searchBlock db "" "Delivered") r = 1 * (delivsFor db r).length := by
      have hc : (List.length ∘ searchBlock db "" "Delivered") r =
          (peopleFor db r).length * (delivsFor db r).length :=
        length_searchBlock_delivered db r
      rw [hc, length_peopleFor db hnd_p r (hex r hr)]
    rw [this, Nat.one_mul]
    exact (List.countP_eq_length_filter _ _).symm
  rw [h1, sum_countP_swap (fun r d => d.request_id == r.id) db.requests db.deliveries]
  have h2 : db.deliveries.map (fun d => db.requests.countP (fun r => d.request_id == r.id)) =
      db.deliveries.map (fun d =>
        if (db.requests.find? (fun r => r.id == d.request_id)).isSome then 1 else 0) := by
    refine List.map_congr_left ?_
    intro d _
    rw [List.countP_congr (fun r _ => by rw [beq_nat_comm])]
    exact countP_key_of_nodup AidRequest.id db.requests hnd_r d.request_id
  rw [h2, sum_map_ite_one]
  refine List.countP_congr ?_
  intro d _
  rw [any_eq_isSome_find]

theorem statusPass_other (status : String) (h1 : status ≠ "Pending")
    (h2 : status ≠ "Delivered") (d : Option AidDelivery) : statusPass status d = true := by
  unfold statusPass
  rw [if_neg h1, if_neg h2]

theorem fst_mem_of_mem_joinRows (db : DB) (r : AidRequest) :
    ∀ pr ∈ joinRows db r, pr.1 ∈ peopleFor db r := by
  intro pr hpr
  unfold joinRows at hpr
  obtain ⟨p, hp, hpr2⟩ := List.mem_flatMap.mp hpr
  cases h : delivsFor db r with
  | nil =>
    rw [h] at hpr2
    obtain rfl := List.mem_singleton.mp hpr2
    exact hp
  | cons d ds =>
    rw [h] at hpr2
    obtain ⟨dd, _, rfl⟩ := List.mem_map.mp hpr2
    exact hp

/-! ### Summary building blocks -/

theorem joinedAreas_eq_filterMap (db : DB)
    (hnd_p : (db.people.map Person.id).Nodup)
    (hnd_r : (db.requests.map AidRequest.id).Nodup) :
    joinedAreas db = db.deliveries.filterMap (delivAreaOpt db) := by
  unfold joinedAreas
  rw [← flatMap_toList_eq_filterMap]
  refine List.flatMap_congr ?_
  intro d _
  rw [filter_key_of_nodup AidRequest.id db.requests hnd_r d.request_id]
  unfold delivAreaOpt
  cases hr : db.requests.find? (fun r => r.id == d.request_id) with
  | none => rfl
  | some r =>
    simp only [Option.toList_some, List.flatMap_cons, List.flatMap_nil, List.append_nil,
      Option.some_bind]
    rw [filter_key_of_nodup Person.id db.people hnd_p r.person_id]
    cases hp : db.people.find? (fun p => p.id == r.person_id) with
    | none => rfl
    | some p => rfl

theorem delivAreaOpt_isSome (db : DB)
    (hex_r : ∀ r ∈ db.requests, ∃ p ∈ db.people, p.id = r.person_id)
    (hex_d : ∀ d ∈ db.deliveries, ∃ r ∈ db.requests, r.id = d.request_id)
    (d : AidDelivery) (hd : d ∈ db.deliveries) : (delivAreaOpt db d).isSome := by
  obtain ⟨r, hr, hrid⟩ := hex_d d hd
  have h1 : (db.requests.find? (fun x => x.id == d.request_id)).isSome :=
    List.find?_isSome.mpr ⟨r, hr, by simpa using hrid⟩
  obtain ⟨r', hr'⟩ := Option.isSome_iff_exists.mp h1
  obtain ⟨p, hp, hpid⟩ := hex_r r' (List.mem_of_find?_eq_some hr')
  have h2 : (db.people.find? (fun x => x.id == r'.person_id)).isSome :=
    List.find?_isSome.mpr ⟨p, hp, by simpa using hpid⟩
  obtain ⟨p', hp'⟩ := Option.isSome_iff_exists.mp h2
  unfold delivAreaOpt
  rw [hr', Option.some_bind, hp']
  rfl

theorem count_joinedAreas (db : DB)
    (hnd_p : (db.people.map Person.id).Nodup)
    (hnd_r : (db.requests.map AidRequest.id).Nodup) (a : String) :
    (joinedAreas db).count a =
      db.deliveries.countP (fun d => delivAreaOpt db d == some a) := by
  rw [joinedAreas_eq_filterMap db hnd_p hnd_r, List.count_filterMap]

theorem summary_perm_tally (db : DB) :
    (delivered_summary_by_area db).Perm
      ((joinedAreas db).dedup.map (fun a => (a, (joinedAreas db).count a))) := by
  unfold delivered_summary_by_area
  exact List.perm_insertionSort _ _

/-! ### CSV round-trip building blocks -/

theorem not_special_spec (c : Char) (h : csvSpecial c = false) :
    c ≠ ',' ∧ c ≠ '"' ∧ c ≠ '\r' ∧ c ≠ '\n' := by
  refine ⟨fun hc => ?_, fun hc => ?_, fun hc => ?_, fun hc => ?_⟩ <;>
    (subst hc; exact absurd h (by decide))

theorem csvScan_fieldStart_quote (rest field : List Char) (row : List (List Char)) :
    csvScan ('"' :: rest) .fieldStart field row = csvScan rest .quoted field row := by
  simp [csvScan]

theorem csvScan_fieldStart_comma (rest field : List Char) (row : List (List Char)) :
    csvScan (',' :: rest) .fieldStart field row =
      csvScan rest .fieldStart [] (row ++ [field]) := by
  simp [csvScan, show (',' : Char) ≠ '"' by decide]

theorem csvScan_fieldStart_crlf (rest field : List Char) (row : List (List Char)) :
    csvScan ('\r' :: '\n' :: rest) .fieldStart field row =
      (if row = [] then [] else csvCloseRec row field) :: csvScan rest .fieldStart [] [] := by
  simp [csvScan, show ('\r' : Char) ≠ '"' by decide, show ('\r' : Char) ≠ ',' by decide,
    show ('\n' : Char) = '\n' by decide]

theorem csvScan_fieldStart_other (c : Char) (rest field : List Char) (row : List (List Char))
    (h2 : c ≠ '"') (h1 : c ≠ ',') (h3 : c ≠ '\r') (h4 : c ≠ '\n') :
    csvScan (c :: rest) .fieldStart field row =
      csvScan rest .unquoted (field ++ [c]) row := by
  simp [csvScan, h1, h2, h3, h4]

theorem csvScan_unquoted_comma (rest field : List Char) (row : List (List Char)) :
    csvScan (',' :: rest) .unquoted field row =
      csvScan rest .fieldStart [] (row ++ [field]) := by
  simp [csvScan]

theorem csvScan_unquoted_crlf (rest field : List Char) (row : List (List Char)) :
    csvScan ('\r' :: '\n' :: rest) .unquoted field row =
      csvCloseRec row field :: csvScan rest .fieldStart [] [] := by
  simp [csvScan, show ('\r' : Char) ≠ ',' by decide]

theorem csvScan_unquoted_other (c : Char) (rest field : List Char) (row : List (List Char))
    (h1 : c ≠ ',') (h3 : c ≠ '\r') (h4 : c ≠ '\n') :
    csvScan (c :: rest) .unquoted field row =
      csvScan rest .unquoted (field ++ [c]) row := by
  simp [csvScan, h1, h3, h4]

theorem csvScan_quoted_quote (rest field : List Char) (row : List (List Char)) :
    csvScan ('"' :: rest) .quoted field row = csvScan rest .afterQuote field row := by
  simp [csvScan]

theorem csvScan_quoted_other (c : Char) (rest field : List Char) (row : List (List Char))
    (h2 : c ≠ '"') :
    csvScan (c :: rest) .quoted field row = csvScan rest .quoted (field ++ [c]) row := by
  simp [csvScan, h2]

theorem csvScan_afterQuote_quote (rest field : List Char) (row : List (List Char)) :
    csvScan ('"' :: rest) .afterQuote field row =
      csvScan rest .quoted (field ++ ['"']) row := by
  simp [csvScan]

theorem csvScan_afterQuote_comma (rest field : List Char) (row : List (List Char)) :
    csvScan (',' :: rest) .afterQuote field row =
      csvScan rest .fieldStart [] (row ++ [field]) := by
  simp [csvScan, show (',' : Char) ≠ '"' by decide]

theorem csvScan_afterQuote_crlf (rest field : List Char) (row : List (List Char)) :
    csvScan ('\r' :: '\n' :: rest) .afterQuote field row =
      csvCloseRec row field :: csvScan rest .fieldStart [] [] := by
  simp [csvScan, show ('\r' : Char) ≠ '"' by decide, show ('\r' : Char) ≠ ',' by decide]

theorem csvCloseRec_data (row : List (List Char)) (s : String) :
    csvCloseRec row s.data = row.map String.mk ++ [s] := by
  unfold csvCloseRec
  rw [List.map_append]
  rfl

/-- Consuming a run of unremarkable characters in `unquoted` mode. -/
theorem csvScan_unquoted_run (s : List Char) (hs : ∀ c ∈ s, csvSpecial c = false)
    (rest field : List Char) (row : List (List Char)) :
    csvScan (s ++ rest) .unquoted field row = csvScan rest .unquoted (field ++ s) row := by
  induction s generalizing field with
  | nil => rw [List.nil_append, List.append_nil]
  | cons c t ih =>
    obtain ⟨h1, _, h3, h4⟩ := not_special_spec c (hs c (List.mem_cons_self c t))
    rw [List.cons_append, csvScan_unquoted_other c _ _ _ h1 h3 h4,
      ih (fun x hx => hs x (List.mem_cons_of_mem c hx)), List.append_assoc]
    rfl

/-- Consuming an escaped field body in `quoted` mode. -/
theorem csvScan_quoted_run (s : List Char) (rest field : List Char)
    (row : List (List Char)) :
    csvScan (csvEscQuotes s ++ rest) .quoted field row =
      csvScan rest .quoted (field ++ s) row := by
  induction s generalizing field with
  | nil => rw [show csvEscQuotes [] = [] from rfl, List.nil_append, List.append_nil]
  | cons c t ih =>
    by_cases hc : c = '"'
    · subst hc
      rw [show csvEscQuotes ('"' :: t) = '"' :: '"' :: csvEscQuotes t from rfl,
        List.cons_append, List.cons_append, csvScan_quoted_quote,
        csvScan_afterQuote_quote, ih, List.append_assoc]
      rfl
    · rw [show csvEscQuotes (c :: t) = c :: csvEscQuotes t from if_neg hc,
        List.cons_append, csvScan_quoted_other c _ _ _ hc, ih, List.append_assoc]
      rfl

/-- One encoded field followed by a comma. -/
theorem csvScan_cell_comma (s : String) (rest : List Char) (row : List (List Char)) :
    csvScan (csvEncCell s ++ ',' :: rest) .fieldStart [] row =
      csvScan rest .fieldStart [] (row ++ [s.data]) := by
  unfold csvEncCell
  by_cases hq : csvNeedsQuote s = true
  · rw [if_pos hq, List.cons_append, csvScan_fieldStart_quote, List.append_assoc,
      csvScan_quoted_run, List.singleton_append, csvScan_quoted_quote,
      csvScan_afterQuote_comma, List.nil_append]
  · rw [if_neg hq]
    have hq' : s.data.any csvSpecial = false := by
      unfold csvNeedsQuote at hq
      exact Bool.eq_false_iff.mpr hq
    have hs : ∀ c ∈ s.data, csvSpecial c = false :=
      fun c hc => Bool.eq_false_iff.mpr (List.any_eq_false.mp hq' c hc)
    cases hd : s.data with
    | nil =>
      rw [List.nil_append, csvScan_fieldStart_comma]
    | cons c t =>
      obtain ⟨h1, h2, h3, h4⟩ := not_special_spec c (hs c (hd ▸ List.mem_cons_self c t))
      rw [List.cons_append,
        csvScan_fieldStart_other c _ _ _ h2 h1 h3 h4, List.nil_append,
        csvScan_unquoted_run t (fun x hx => hs x (hd ▸ List.mem_cons_of_mem c hx)),
        csvScan_unquoted_comma]
      rfl

/-- One encoded field followed by the record terminator. -/
theorem csvScan_cell_crlf (s : String) (rest : List Char) (row : List (List Char))
    (h : row ≠ [] ∨ s ≠ "") :
    csvScan (csvEncCell s ++ '\r' :: '\n' :: rest) .fieldStart [] row =
      csvCloseRec row s.data :: csvScan rest .fieldStart [] [] := by
  unfold csvEncCell
  by_cases hq : csvNeedsQuote s = true
  · rw [if_pos hq, List.cons_append, csvScan_fieldStart_quote, List.append_assoc,
      csvScan_quoted_run, List.singleton_append, csvScan_quoted_quote,
      csvScan_afterQuote_crlf, List.nil_append]
  · rw [if_neg hq]
    have hq' : s.data.any csvSpecial = false := by
      unfold csvNeedsQuote at hq
      exact Bool.eq_false_iff.mpr hq
    have hs : ∀ c ∈ s.data, csvSpecial c = false :=
      fun c hc => Bool.eq_false_iff.mpr (List.any_eq_false.mp hq' c hc)
    cases hd : s.data with
    | nil =>
      have hrow : row ≠ [] := by
        rcases h with h | h
        · exact h
        · exact absurd (congrArg String.mk hd) h
      rw [List.nil_append, csvScan_fieldStart_crlf, if_neg hrow]
    | cons c t =>
      obtain ⟨h1, h2, h3, h4⟩ := not_special_spec c (hs c (hd ▸ List.mem_cons_self c t))
      rw [List.cons_append, csvScan_fieldStart_other c _ _ _ h2 h1 h3 h4, List.nil_append,
        csvScan_unquoted_run t (fun x hx => hs x (hd ▸ List.mem_cons_of_mem c hx)),
        csvScan_unquoted_crlf]
      rfl

/-- A nonempty comma-joined field list followed by the record terminator. -/
theorem csvScan_fields (fs : List String) (rest : List Char) (row : List (List Char))
    (hne : fs ≠ []) (hrow : row = [] → fs ≠ [""]) :
    csvScan (csvEncFields fs ++ '\r' :: '\n' :: rest) .fieldStart [] row =
      (row.map String.mk ++ fs) :: csvScan rest .fieldStart [] [] := by
  induction fs generalizing row with
  | nil => exact absurd rfl hne
  | cons f fs ih =>
    cases fs with
    | nil =>
      have hor : row ≠ [] ∨ f ≠ "" := by
        by_cases hr : row = []
        · refine Or.inr (fun hf => (hrow hr) ?_)
          rw [hf]
        · exact Or.inl hr
      rw [show csvEncFields [f] = csvEncCell f from rfl, csvScan_cell_crlf f rest row hor,
        csvCloseRec_data]
    | cons g gs =>
      rw [show csvEncFields (f :: g :: gs) = csvEncCell f ++ ',' :: csvEncFields (g :: gs)
          from rfl,
        List.append_assoc, List.cons_append, csvScan_cell_comma,
        ih (row ++ [f.data]) (by simp) (fun hx => by simp at hx)]
      have hmk : (row ++ [f.data]).map String.mk ++ (g :: gs) =
          row.map String.mk ++ (f :: g :: gs) := by
        rw [List.map_append, List.append_assoc]
        rfl
      rw [hmk]

/-- One encoded record consumed from field-start position. -/
theorem csvScan_record (r : List String) (rest : List Char) :
    csvScan (csvEncRec r ++ rest) .fieldStart [] [] =
      r :: csvScan rest .fieldStart [] [] := by
  cases r with
  | nil =>
    rw [show csvEncRec [] = ['\r', '\n'] from rfl, List.cons_append, List.cons_append,
      List.nil_append, csvScan_fieldStart_crlf, if_pos rfl]
  | cons f fs =>
    by_cases hlit : f :: fs = [""]
    · unfold csvEncRec
      rw [if_pos hlit, hlit]
      simp only [List.cons_append, List.nil_append]
      rw [csvScan_fieldStart_quote, csvScan_quoted_quote, csvScan_afterQuote_crlf]
      rfl
    · unfold csvEncRec
      rw [if_neg hlit, List.append_assoc, List.cons_append, List.cons_append,
        List.nil_append, csvScan_fields (f :: fs) rest [] (by simp) (fun _ => hlit)]
      rfl

/-- Every document written by the adapter parses back to itself. -/
theorem csvParse_export (data : List (List String)) :
    csvParse (export_to_csv data) = data := by
  unfold csvParse export_to_csv
  induction data with
  | nil => rfl
  | cons r rows ih =>
    rw [List.map_cons, List.flatten_cons, csvScan_record, ih]

/-! ## Claim theorems -/

/-- C9.  `init_db` is idempotent: one call on a fresh store puts each seed
aid-type name in the catalog exactly once, and any further call leaves the
whole store (the aid-type catalog and every other table) unchanged. -/
theorem init_db_idempotent :
    (∀ s ∈ seedNames, (init_db emptyDB).aid_types.count s = 1) ∧
    (∀ db : DB, init_db (init_db db) = init_db db) := by
  constructor
  · decide
  · intro db
    exact foldl_insertAidType_of_mem seedNames (init_db db)
      (fun s hs => seed_mem_foldl_insertAidType seedNames db s hs)

/-- Witness for C9 at concrete inputs. -/
theorem init_db_idempotent_witness :
    (init_db emptyDB).aid_types.count "Food" = 1 ∧
    init_db (init_db emptyDB) = init_db emptyDB :=
  ⟨init_db_idempotent.1 "Food" (by decide), init_db_idempotent.2 emptyDB⟩

/-- C1 (code bug).  The `on_add` handler rejects an empty name/area and a
non-`isdigit` age with `ValidationError`, leaving the store unchanged, and
inserts one row for a decimal-digit age — including one written in
non-ASCII decimal digits such as `"\u0663"` (ARABIC-INDIC DIGIT THREE,
stored as 3).  But `str.isdigit` also accepts digit characters `int()`
rejects: for the age `"\u00b2"` (SUPERSCRIPT TWO) the validation passes and
`int` then raises a `ValueError` that escapes the handler uncaught — no
`ValidationError` is surfaced and no row is inserted. -/
theorem registerPerson_valueError_escape :
    registerPerson (init_db emptyDB) "" "North" "34" =
      (init_db emptyDB, some .validationError) ∧
    registerPerson (init_db emptyDB) "Asha" "North" "3a" =
      (init_db emptyDB, some .validationError) ∧
    (registerPerson (init_db emptyDB) "Asha" "North" "34").1.people =
      [⟨1, "Asha", "North", some 34⟩] ∧
    (registerPerson (init_db emptyDB) "Asha" "North" "34").2 = none ∧
    (registerPerson (init_db emptyDB) "Asha" "North" "\u0663").1.people =
      [⟨1, "Asha", "North", some 3⟩] ∧
    pyIsdigit "\u00b2" = true ∧
    registerPerson (init_db emptyDB) "Asha" "North" "\u00b2" =
      (init_db emptyDB, some .uncaughtValueError) := by
  decide

/-- C2 (code bug).  `add_request` and `mark_delivered` perform no existence
check, and the program never enables SQLite foreign-key enforcement, so a
call with a nonexistent `person_id` / `request_id` does not fail with
`NotFoundError`: it inserts a dangling row.  Evaluated on a freshly
initialized store: person id 999 and request id 555 exist nowhere, yet both
inserts succeed. -/
theorem dangling_insert_not_rejected :
    (∀ p ∈ (init_db emptyDB).people, p.id ≠ 999) ∧
    (add_request (init_db emptyDB) 999 "Food" "2024-01-10").requests =
      (init_db emptyDB).requests ++ [⟨1, 999, "Food", "2024-01-10"⟩] ∧
    (∀ r ∈ (init_db emptyDB).requests, r.id ≠ 555) ∧
    (mark_delivered (init_db emptyDB) 555 "Rice 5kg" "2024-01-12").deliveries =
      (init_db emptyDB).deliveries ++ [⟨1, 555, "Rice 5kg", "2024-01-12"⟩] := by
  decide

/-- C5.  On a store satisfying the data-model invariants,
`list_pending_requests` returns one `(request id, person name, area, aid
type, request date)` tuple for exactly those requests that no delivery
references (count 1 for each undelivered request, 0 for each delivered one),
every returned row is such a tuple, and the rows are ordered by request id
descending. -/
theorem list_pending_spec (db : DB) (hwf : db.wf) :
    (∀ r ∈ db.requests,
      (list_pending_requests db).countP (fun row => row.1 == r.id) =
        if delivsFor db r = [] then 1 else 0) ∧
    (∀ row ∈ list_pending_requests db,
      ∃ r ∈ db.requests, ∃ p ∈ db.people,
        p.id = r.person_id ∧ delivsFor db r = [] ∧
        row = (r.id, p.name, p.area, r.aid_type, r.request_date)) ∧
    List.Sorted (fun x y : Nat => y ≤ x)
      ((list_pending_requests db).map (fun row => row.1)) := by
  refine ⟨fun r hr => pending_countP db hwf r hr, mem_list_pending db, ?_⟩
  unfold list_pending_requests
  refine sorted_map_key_flatMap _ (pendingBlock db) _ AidRequest.id ?_ ?_
  · exact List.sorted_insertionSort (keyDesc AidRequest.id) db.requests
  · exact fun r _ row hrow => fst_of_mem_pendingBlock db r row hrow

/-- Witness for C5 at a concrete well-formed store. -/
theorem list_pending_spec_witness :
    dbMix.wf ∧
    ((∀ r ∈ dbMix.requests,
      (list_pending_requests dbMix).countP (fun row => row.1 == r.id) =
        if delivsFor dbMix r = [] then 1 else 0) ∧
    (∀ row ∈ list_pending_requests dbMix,
      ∃ r ∈ dbMix.requests, ∃ p ∈ dbMix.people,
        p.id = r.person_id ∧ delivsFor dbMix r = [] ∧
        row = (r.id, p.name, p.area, r.aid_type, r.request_date)) ∧
    List.Sorted (fun x y : Nat => y ≤ x)
      ((list_pending_requests dbMix).map (fun row => row.1))) :=
  ⟨by decide, list_pending_spec dbMix (by decide)⟩

/-- C3 counterexample.  On the store where `mark_delivered` ran twice against
the one request, the request indeed vanishes from `list_pending_requests`,
but `search(status=Delivered)` and `search(status=All)` report it once per
delivery row — two rows, not "exactly one row". -/
theorem double_delivery_counterexample :
    list_pending_requests dbDouble = [] ∧
    search dbDouble "" "Delivered" =
      [("Asha", "North", "Food", "2024-01-10", "2024-01-12"),
       ("Asha", "North", "Food", "2024-01-10", "2024-01-13")] ∧
    (search dbDouble "" "Delivered").length = 2 ∧
    search dbDouble "" "All" = search dbDouble "" "Delivered" := by
  decide

/-- C3 (amended).  On a store satisfying the data-model invariants, a request
with at least one delivery appears in no row of `list_pending_requests`, and
`search(status=Delivered)` carries one row per delivery whose request exists
— so a double-delivered request is reported once per delivery row, twice, not
once; `search(status=All)` has exactly the pending rows plus those delivered
rows. -/
theorem double_delivery_reported (db : DB) (hwf : db.wf) :
    (∀ r ∈ db.requests, delivsFor db r ≠ [] →
      ∀ row ∈ list_pending_requests db, row.1 ≠ r.id) ∧
    (search db "" "Delivered").length =
      db.deliveries.countP (fun d => db.requests.any (fun r => r.id == d.request_id)) ∧
    (search db "" "All").length =
      (search db "" "Pending").length + (search db "" "Delivered").length := by
  refine ⟨?_, search_delivered_length db hwf, ?_⟩
  · intro r hr hds row hrow
    have hc := pending_countP db hwf r hr
    rw [if_neg hds] at hc
    have hz := List.countP_eq_zero.mp hc row hrow
    simpa using hz
  · rw [(search_split_perm db).length_eq, List.length_append]

/-- Witness for C3 (amended) at the double-delivered store. -/
theorem double_delivery_reported_witness :
    dbDouble.wf ∧
    ((∀ r ∈ dbDouble.requests, delivsFor dbDouble r ≠ [] →
      ∀ row ∈ list_pending_requests dbDouble, row.1 ≠ r.id) ∧
    (search dbDouble "" "Delivered").length =
      dbDouble.deliveries.countP
        (fun d => dbDouble.requests.any (fun r => r.id == d.request_id)) ∧
    (search dbDouble "" "All").length =
      (search dbDouble "" "Pending").length + (search dbDouble "" "Delivered").length) :=
  ⟨by decide, double_delivery_reported dbDouble (by decide)⟩

/-- C6 counterexample.  With a delivery whose `delivery_date` is the literal
text `PENDING`, one and the same row lies in both `search(status=Pending)`
and `search(status=Delivered)` — not "in exactly one of the two" — while
`search(status=All)` carries it twice. -/
theorem search_union_counterexample :
    ("Asha", "North", "Food", "2024-01-10", "PENDING") ∈ search dbLit "" "Pending" ∧
    ("Asha", "North", "Food", "2024-01-10", "PENDING") ∈ search dbLit "" "Delivered" ∧
    search dbLit "" "All" =
      [("Asha", "North", "Food", "2024-01-10", "PENDING"),
       ("Asha", "North", "Food", "2024-01-10", "PENDING")] := by
  decide

/-- C6 (amended).  For every store, `search(area="", status="All")` is, as a
multiset, exactly `search(status="Pending")` plus `search(status="Delivered")`:
each row occurs in the All result as often as in the two restricted results
combined (so nothing is omitted and nothing extra appears; a row can occur in
both restricted results only by a delivery date spelling `PENDING`). -/
theorem search_all_union (db : DB) :
    (search db "" "All").Perm (search db "" "Pending" ++ search db "" "Delivered") ∧
    ∀ row, (search db "" "All").countP (fun x => x == row) =
      (search db "" "Pending").countP (fun x => x == row) +
        (search db "" "Delivered").countP (fun x => x == row) := by
  refine ⟨search_split_perm db, fun row => ?_⟩
  rw [List.Perm.countP_eq _ (search_split_perm db), List.countP_append]

/-- C4 counterexample.  SQLite's default `LIKE` compares ASCII letters
case-insensitively: with the area filter `"north"`, the search returns the
request of the person whose area is `"North"`, although `"North"` does not
contain `"north"` as a case-sensitive substring. -/
theorem search_case_counterexample :
    search dbCase "north" "All" = [("Asha", "North", "Food", "2024-01-10", "PENDING")] ∧
    csContains "North".data "north".data = false := by
  decide

/-- C4 (amended).  On a store with unique person ids, `search` returns
exactly what the claim describes once the area matching is read as SQLite
`LIKE` (ASCII-case-insensitive, `%`/`_` wildcards) rather than a
case-sensitive substring test: requests in descending id order, each joined
to its person, dropped when the non-empty area filter fails against the
person's area, restricted to undelivered requests for `Pending` and to one
row per delivery for `Delivered`, with the last column `PENDING` for
undelivered rows and the delivery date otherwise. -/
theorem search_eq_specSearch (db : DB) (area status : String)
    (hnd : (db.people.map Person.id).Nodup) :
    search db area status = specSearch db area status := by
  unfold search specSearch
  refine List.flatMap_congr ?_
  intro r _
  cases hf : db.people.find? (fun p => p.id == r.person_id) with
  | none =>
    have hp : peopleFor db r = [] := by rw [peopleFor_eq_find db hnd r, hf]; rfl
    have hj : joinRows db r = [] := by
      unfold joinRows
      rw [hp]
      rfl
    unfold searchBlock
    rw [hj]
    rfl
  | some p =>
    have hp : peopleFor db r = [p] := by rw [peopleFor_eq_find db hnd r, hf]; rfl
    unfold searchBlock
    dsimp only
    by_cases harea : areaPass area p = true
    · have hcond : ¬(area ≠ "" ∧ likeMatch (likePattern area) p.area.data = false) := by
        unfold areaPass at harea
        by_cases he : area = ""
        · rintro ⟨hne, _⟩
          exact hne he
        · rw [if_neg he] at harea
          rintro ⟨_, hlf⟩
          rw [harea] at hlf
          cases hlf
      rw [if_neg hcond]
      by_cases hst1 : status = "Pending"
      · subst hst1
        rw [if_pos rfl]
        cases hds : delivsFor db r with
        | nil =>
          have hj : joinRows db r = [(p, none)] := by
            rw [joinRows_of_no_deliv db r hds, hp]
            rfl
          have hfil : [((p : Person), (none : Option AidDelivery))].filter
              (fun pr => areaPass area pr.1 && statusPass "Pending" pr.2) = [(p, none)] := by
            refine List.filter_eq_self.mpr ?_
            intro pr hpr
            obtain rfl := List.mem_singleton.mp hpr
            rw [statusPass_pending, harea]
            rfl
          rw [hj, if_pos rfl, hfil]
          rfl
        | cons d ds =>
          have hj : joinRows db r = (d :: ds).map (fun dd => (p, some dd)) := by
            rw [joinRows_of_deliv db r d ds hds, hp]
            simp [List.flatMap_cons]
          have hfil : ((d :: ds).map (fun dd => ((p : Person), some dd))).filter
              (fun pr => areaPass area pr.1 && statusPass "Pending" pr.2) = [] := by
            refine List.filter_eq_nil_iff.mpr ?_
            intro pr hpr
            obtain ⟨dd, _, rfl⟩ := List.mem_map.mp hpr
            rw [statusPass_pending]
            simp
          rw [hj, if_neg (by simp), hfil]
          rfl
      · by_cases hst2 : status = "Delivered"
        · subst hst2
          rw [if_neg hst1, if_pos rfl]
          cases hds : delivsFor db r with
          | nil =>
            have hj : joinRows db r = [(p, none)] := by
              rw [joinRows_of_no_deliv db r hds, hp]
              rfl
            have hfil : [((p : Person), (none : Option AidDelivery))].filter
                (fun pr => areaPass area pr.1 && statusPass "Delivered" pr.2) = [] := by
              refine List.filter_eq_nil_iff.mpr ?_
              intro pr hpr
              obtain rfl := List.mem_singleton.mp hpr
              rw [statusPass_delivered]
              simp
            rw [hj, hfil]
            rfl
          | cons d ds =>
            have hj : joinRows db r = (d :: ds).map (fun dd => (p, some dd)) := by
              rw [joinRows_of_deliv db r d ds hds, hp]
              simp [List.flatMap_cons]
            have hfil : ((d :: ds).map (fun dd => ((p : Person), some dd))).filter
                (fun pr => areaPass area pr.1 && statusPass "Delivered" pr.2) =
                (d :: ds).map (fun dd => (p, some dd)) := by
              refine List.filter_eq_self.mpr ?_
              intro pr hpr
              obtain ⟨dd, _, rfl⟩ := List.mem_map.mp hpr
              rw [statusPass_delivered, harea]
              rfl
            rw [hj, hfil, List.map_map]
            refine List.map_congr_left ?_
            intro dd _
            rfl
        · rw [if_neg hst1, if_neg hst2]
          cases hds : delivsFor db r with
          | nil =>
            have hj : joinRows db r = [(p, none)] := by
              rw [joinRows_of_no_deliv db r hds, hp]
              rfl
            have hfil : [((p : Person), (none : Option AidDelivery))].filter
                (fun pr => areaPass area pr.1 && statusPass status pr.2) = [(p, none)] := by
              refine List.filter_eq_self.mpr ?_
              intro pr hpr
              obtain rfl := List.mem_singleton.mp hpr
              rw [statusPass_other status hst1 hst2, harea]
              rfl
            rw [hj, if_pos rfl, hfil]
            rfl
          | cons d ds =>
            have hj : joinRows db r = (d :: ds).map (fun dd => (p, some dd)) := by
              rw [joinRows_of_deliv db r d ds hds, hp]
              simp [List.flatMap_cons]
            have hfil : ((d :: ds).map (fun dd => ((p : Person), some dd))).filter
                (fun pr => areaPass area pr.1 && statusPass status pr.2) =
                (d :: ds).map (fun dd => (p, some dd)) := by
              refine List.filter_eq_self.mpr ?_
              intro pr hpr
              obtain ⟨dd, _, rfl⟩ := List.mem_map.mp hpr
              rw [statusPass_other status hst1 hst2, harea]
              rfl
            rw [hj, if_neg (by simp), hfil, List.map_map]
            refine List.map_congr_left ?_
            intro dd _
            rfl
    · have harea' : areaPass area p = false := by simpa using harea
      have hcond : area ≠ "" ∧ likeMatch (likePattern area) p.area.data = false := by
        unfold areaPass at harea'
        by_cases he : area = ""
        · rw [if_pos he] at harea'
          cases harea'
        · rw [if_neg he] at harea'
          exact ⟨he, harea'⟩
      rw [if_pos hcond]
      have hfil : (joinRows db r).filter
          (fun pr => areaPass area pr.1 && statusPass status pr.2) = [] := by
        refine List.filter_eq_nil_iff.mpr ?_
        intro pr hpr
        have h1 : pr.1 ∈ peopleFor db r := fst_mem_of_mem_joinRows db r pr hpr
        rw [hp] at h1
        obtain h1 := List.mem_singleton.mp h1
        rw [h1, harea']
        simp
      rw [hfil]
      rfl

/-- Witness for C4 (amended) at a concrete store and filter. -/
theorem search_eq_specSearch_witness :
    (dbMix.people.map Person.id).Nodup ∧
    search dbMix "o" "All" = specSearch dbMix "o" "All" :=
  ⟨by decide, search_eq_specSearch dbMix "o" "All" (by decide)⟩

/-- C7.  On a store satisfying the data-model invariants,
`delivered_summary_by_area` has one row per distinct area with at least one
delivered request (no duplicate areas; an area appears iff some delivery is
attributed to it), each count is the number of `aid_delivered` rows whose
request's person has that area, rows are ordered by count descending, and —
in particular when every request has at most one delivery — the counts sum
to `CountDeliveries()`. -/
theorem delivered_summary_spec (db : DB) (hwf : db.wf) :
    ((delivered_summary_by_area db).map Prod.fst).Nodup ∧
    (∀ a : String,
      a ∈ (delivered_summary_by_area db).map Prod.fst ↔
        ∃ d ∈ db.deliveries, delivAreaOpt db d = some a) ∧
    (∀ row ∈ delivered_summary_by_area db,
      row.2 = db.deliveries.countP (fun d => delivAreaOpt db d == some row.1)) ∧
    List.Sorted (keyDesc Prod.snd) (delivered_summary_by_area db) ∧
    ((∀ r ∈ db.requests, (delivsFor db r).length ≤ 1) →
      ((delivered_summary_by_area db).map Prod.snd).sum = countDeliveries db) := by
  obtain ⟨hnd_p, hnd_r, hex_r, hex_d⟩ := hwf
  have hcompf : (Prod.fst ∘ fun a : String => (a, (joinedAreas db).count a)) =
      fun a : String => a := rfl
  have hmapfst : ((joinedAreas db).dedup.map
      (fun a => (a, (joinedAreas db).count a))).map Prod.fst = (joinedAreas db).dedup := by
    rw [List.map_map, hcompf, List.map_id']
  refine ⟨?_, ?_, ?_, ?_, ?_⟩
  · refine ((summary_perm_tally db).map Prod.fst).nodup_iff.mpr ?_
    rw [hmapfst]
    exact List.nodup_dedup _
  · intro a
    rw [((summary_perm_tally db).map Prod.fst).mem_iff, hmapfst, List.mem_dedup,
      joinedAreas_eq_filterMap db hnd_p hnd_r, List.mem_filterMap]
  · intro row hrow
    have hmem := (summary_perm_tally db).mem_iff.mp hrow
    obtain ⟨x, _, hpair⟩ := List.mem_map.mp hmem
    rw [← hpair]
    exact count_joinedAreas db hnd_p hnd_r x
  · unfold delivered_summary_by_area
    exact List.sorted_insertionSort _ _
  · intro _
    rw [((summary_perm_tally db).map Prod.snd).sum_eq, List.map_map]
    have hcomps : (Prod.snd ∘ fun a : String => (a, (joinedAreas db).count a)) =
        fun a : String => (joinedAreas db).count a := rfl
    rw [hcomps, List.sum_map_count_dedup_eq_length,
      joinedAreas_eq_filterMap db hnd_p hnd_r,
      length_filterMap_of_all_isSome _ _ (fun d hd => delivAreaOpt_isSome db hex_r hex_d d hd)]
    rfl

/-- Witness for C7 at a concrete well-formed store. -/
theorem delivered_summary_spec_witness :
    dbMix.wf ∧
    (((delivered_summary_by_area dbMix).map Prod.fst).Nodup ∧
    (∀ a : String,
      a ∈ (delivered_summary_by_area dbMix).map Prod.fst ↔
        ∃ d ∈ dbMix.deliveries, delivAreaOpt dbMix d = some a) ∧
    (∀ row ∈ delivered_summary_by_area dbMix,
      row.2 = dbMix.deliveries.countP (fun d => delivAreaOpt dbMix d == some row.1)) ∧
    List.Sorted (keyDesc Prod.snd) (delivered_summary_by_area dbMix) ∧
    ((∀ r ∈ dbMix.requests, (delivsFor dbMix r).length ≤ 1) →
      ((delivered_summary_by_area dbMix).map Prod.snd).sum = countDeliveries dbMix)) :=
  ⟨by decide, delivered_summary_spec dbMix (by decide)⟩

/-- C8.  `export_to_csv` round-trips: writing any header row followed by any
data rows (cells as text, including cells containing commas, quotes or
newlines) and re-parsing the produced file with a standard delimited-text
reader yields exactly the header row followed by the data rows, every cell
verbatim. -/
theorem export_roundtrip (header : List String) (rows : List (List String)) :
    csvParse (export_to_csv (header :: rows)) = header :: rows :=
  csvParse_export (header :: rows)

/-- C10.  Registering with age 0 stores NULL (the handler passes
`age if age else None`), i.e. the store equals the one produced by omitting
the age; the inserted row has no age, and `list_people` renders its age cell
as the empty string. -/
theorem add_person_age_zero (db : DB) (n a : String)
    (h : ∀ p ∈ db.people, p.id ≠ db.seqPeople) :
    add_person db n a (some 0) = add_person db n a none ∧
    (add_person db n a (some 0)).people = db.people ++ [⟨db.seqPeople, n, a, none⟩] ∧
    (∀ row ∈ list_people (add_person db n a (some 0)),
      row.1 = db.seqPeople → row.2.2.2 = "") := by
  refine ⟨rfl, rfl, ?_⟩
  intro row hrow hid
  obtain ⟨p, hp, hpr⟩ := List.mem_map.mp hrow
  have hp' : p ∈ (add_person db n a (some 0)).people :=
    (List.perm_insertionSort (keyDesc Person.id) _).mem_iff.mp hp
  have hpeq : (add_person db n a (some 0)).people = db.people ++ [⟨db.seqPeople, n, a, none⟩] := rfl
  rw [hpeq] at hp'
  rcases List.mem_append.mp hp' with hold | hnew
  · exfalso
    apply h p hold
    have : row.1 = p.id := by rw [← hpr]
    rw [← this, hid]
  · have : p = ⟨db.seqPeople, n, a, none⟩ := List.mem_singleton.mp hnew
    subst this
    rw [← hpr]
    rfl

/-- Witness for C10 at a concrete store. -/
theorem add_person_age_zero_witness :
    add_person (init_db emptyDB) "Asha" "North" (some 0) =
      add_person (init_db emptyDB) "Asha" "North" none ∧
    (add_person (init_db emptyDB) "Asha" "North" (some 0)).people =
      (init_db emptyDB).people ++ [⟨(init_db emptyDB).seqPeople, "Asha", "North", none⟩] ∧
    (∀ row ∈ list_people (add_person (init_db emptyDB) "Asha" "North" (some 0)),
      row.1 = (init_db emptyDB).seqPeople → row.2.2.2 = "") :=
  add_person_age_zero (init_db emptyDB) "Asha" "North" (by decide)

end DRDT
